import Mathlib

/-!
Shallow embedding of the `semantic-router` core:
`semantic_router/embedding/vector.py` (the `EmbeddingVector` operations) and
`semantic_router/router/router.py` (the `SemanticRouter` index builder and
top-k matcher).

Modelling conventions:
* Python floats are modelled as exact rationals (`ℚ`).  `np.linalg.norm` is a
  real square root; it is modelled by `sqrtQ`, the exact rational square root
  on perfect squares (`sqrtQ (a^2/b^2) = a/b` for a fraction in lowest terms).
  Every concrete input used in a theorem below keeps the sums of squares at
  perfect squares, where the model and the source agree exactly.
* Python exceptions are modelled by `Except Err`.  Each distinct `raise`
  site (distinct message) of the source gets its own `Err` constructor;
  `ValueError`/`TypeError` raised inside numpy at mismatched shapes are
  `dimMismatch` (for `np.dot`) and `broadcastError` (for elementwise ops).
* numpy's elementwise `+`/`-` broadcast a length-1 operand against any other
  length and only fail otherwise; `np.dot` on two 1-D arrays requires equal
  lengths.  `npBroadcast` reproduces this.
-/

namespace SemRouter

/-- Every failure surfaced by the embedded code.  The constructors correspond
to the distinct raise sites of the source (and of numpy/`max` builtins). -/
inductive Err where
  /-- numpy: `np.dot` on 1-D arrays of different lengths raises ValueError. -/
  | dimMismatch
  /-- numpy: elementwise ops on non-broadcastable shapes raise ValueError. -/
  | broadcastError
  /-- Python builtin: `max()` over an empty sequence raises ValueError. -/
  | maxOfEmptySequence
  /-- `vector.py:192`: `raise ValueError(f"Unsupported metric '{metric}'")`. -/
  | unsupportedMetric
  /-- `router.py:44`: "No routes provided for the SemanticRouter." -/
  | emptyCatalog
  /-- `router.py:49`: "Duplicate route names found. ..." -/
  | duplicateName
  /-- `router.py:56`: "Duplicate route descriptions found. ..." -/
  | duplicateDescription
  /-- `router.py:62`: `TypeError("Encoder must be an instance of DenseEncoder.")` -/
  | invalidEncoder
  deriving DecidableEq, Repr

/-- A numeric vector (`EmbeddingVector.vector`, a 1-D `np.ndarray`). -/
abbrev Vec := List ℚ

/-- The epsilon `1e-12` added to the cosine-similarity denominator
(`vector.py:168`). -/
def epsQ : ℚ := 1 / 1000000000000

/-- Exact rational square root: on `a^2/b^2` (lowest terms) it returns `a/b`.
Models the real square root used by `np.linalg.norm`; all concrete inputs in
this development are chosen so that the radicand is a perfect square, where
this agrees with the source exactly. -/
def sqrtQ (q : ℚ) : ℚ := (Nat.sqrt q.num.toNat : ℚ) / (Nat.sqrt q.den : ℚ)

/-- `EmbeddingVector.magnitude` (`vector.py:136`): `np.linalg.norm(vector)`,
the Euclidean norm `sqrt(sum(x_i^2))`. -/
def magnitude (a : Vec) : ℚ := sqrtQ (a.map (fun x => x * x)).sum

/-- `EmbeddingVector.dot` (`vector.py:145`): `np.dot` of two 1-D arrays; numpy
raises for different lengths (no broadcasting for 1-D dot). -/
def dot (a b : Vec) : Except Err ℚ :=
  if a.length = b.length then .ok (List.zipWith (fun x y => x * y) a b).sum
  else .error .dimMismatch

/-- `EmbeddingVector.cosine_similarity` (`vector.py:157`):
`dot(self, other) / (magnitude(self) * magnitude(other) + 1e-12)`. -/
def cosineSimilarity (a b : Vec) : Except Err ℚ :=
  match dot a b with
  | .error e => .error e
  | .ok d => .ok (d / (magnitude a * magnitude b + epsQ))

/-- numpy broadcasting for a 1-D elementwise binary operation: equal lengths
pass through, a length-1 operand is stretched to the other's length, anything
else raises. -/
def npBroadcast (a b : Vec) : Except Err (Vec × Vec) :=
  if a.length = b.length then .ok (a, b)
  else
    match a, b with
    | [x], b => .ok (List.replicate b.length x, b)
    | a, [y] => .ok (a, List.replicate a.length y)
    | _, _ => .error .broadcastError

/-- `EmbeddingVector.__add__` (`vector.py:20`): `self.vector + other.vector`
under numpy broadcasting. -/
def addV (a b : Vec) : Except Err Vec :=
  match npBroadcast a b with
  | .error e => .error e
  | .ok (x, y) => .ok (List.zipWith (fun u v => u + v) x y)

/-- `EmbeddingVector.__sub__` (`vector.py:32`): `self.vector - other.vector`
under numpy broadcasting. -/
def subV (a b : Vec) : Except Err Vec :=
  match npBroadcast a b with
  | .error e => .error e
  | .ok (x, y) => .ok (List.zipWith (fun u v => u - v) x y)

/-- `EmbeddingVector.distance` (`vector.py:170`): euclidean / cosine /
manhattan, in source order, else `ValueError("Unsupported metric ...")`. -/
def distance (a b : Vec) (metric : String) : Except Err ℚ :=
  if metric = "euclidean" then
    match subV a b with
    | .error e => .error e
    | .ok d => .ok (magnitude d)
  else if metric = "cosine" then
    match cosineSimilarity a b with
    | .error e => .error e
    | .ok c => .ok (1 - c)
  else if metric = "manhattan" then
    match subV a b with
    | .error e => .error e
    | .ok d => .ok ((d.map (fun x => |x|)).sum)
  else .error .unsupportedMetric

/-! ### Router layer (`router.py`) -/

/-- `Route` (`router.py:9`): frozen dataclass with `name`, `description` and
an ordered sequence of example texts (defaults to the empty tuple). -/
structure Route where
  name : String
  description : String
  examples : List String
  deriving DecidableEq, Repr

/-- The encoder as the router sees it: `encode(list[str]) -> list[vector]`,
plus the fact checked by `isinstance(encoder, DenseEncoder)` (`router.py:61`),
modelled as the flag `isDense`. -/
structure Encoder where
  isDense : Bool
  encode : List String → List Vec

/-- The state of a successfully constructed `SemanticRouter` (`router.py:18`):
the encoder, the route tuple, `top_k`, and `router_map`.  The Python
`router_map` is a dict keyed by route name, populated in catalog order; since
construction enforces unique names it is modelled as the association list in
catalog order, and each entry keeps only the encoded examples (the `route`
value stored alongside is the catalog entry itself). -/
structure Router where
  encoder : Encoder
  routes : List Route
  topK : Int
  routerMap : List (String × List Vec)

/-- `SemanticRouter.__init__` + `_initialize_router_map` (`router.py:21-70`):
the four validations in source order, then one `encoder.encode` call per route
in catalog order.  An error means the constructor raised: no partial index
escapes (the `Except.error` carries no `Router`). -/
def buildRouter (encoder : Encoder) (routes : List Route) (topK : Int) :
    Except Err Router :=
  if routes.length = 0 then .error .emptyCatalog
  else if ¬ (routes.map Route.name).Nodup then .error .duplicateName
  else if ¬ (routes.map Route.description).Nodup then .error .duplicateDescription
  else if ¬ encoder.isDense then .error .invalidEncoder
  else .ok
    { encoder := encoder
      routes := routes
      topK := topK
      routerMap := routes.map (fun rt => (rt.name, encoder.encode rt.examples)) }

/-- A Python loop `[f(x) for x in l]` over fallible `f`, stopping at the first
raised exception. -/
def exceptMap (f : α → Except Err β) : List α → Except Err (List β)
  | [] => .ok []
  | a :: as =>
    match f a with
    | .error e => .error e
    | .ok b =>
      match exceptMap f as with
      | .error e => .error e
      | .ok bs => .ok (b :: bs)

/-- The running `max` of Python's `max()` builtin over the remaining items
(each item itself fallible). -/
def maxSimGo (q : Vec) (acc : ℚ) : List Vec → Except Err ℚ
  | [] => .ok acc
  | e :: rest =>
    match cosineSimilarity q e with
    | .error er => .error er
    | .ok c => maxSimGo q (max acc c) rest

/-- `router.py:102-105`: `max(encoded_query.cosine_similarity(example) for
example in encoded_examples)`.  Python's `max` over an empty generator raises
`ValueError`. -/
def maxSimExs (q : Vec) : List Vec → Except Err ℚ
  | [] => .error .maxOfEmptySequence
  | e :: rest =>
    match cosineSimilarity q e with
    | .error er => .error er
    | .ok c => maxSimGo q c rest

/-- The final `best_scores[route_name]` value for one route over all encoded
queries: `router.py:106` folds `max(score, best_scores.get(route_name, 0.0))`,
i.e. the maximum of `0.0` and the per-query scores. -/
def routeBest (encQs : List Vec) (exs : List Vec) : Except Err ℚ :=
  match exceptMap (fun q => maxSimExs q exs) encQs with
  | .error e => .error e
  | .ok ss => .ok (ss.foldl (fun acc s => max s acc) 0)

/-- One `best_scores` entry for one `router_map` entry. -/
def scoreEntry (encQs : List Vec) (p : String × List Vec) :
    Except Err (String × ℚ) :=
  match routeBest encQs p.2 with
  | .error e => .error e
  | .ok s => .ok (p.1, s)

/-- The `best_scores` dict of `_find_top_k_closest_routes` (`router.py:98-106`)
as an association list.  Python fills it with a query-outer/route-inner loop;
with at least one encoded query its keys are exactly the `router_map` keys in
catalog (insertion) order and each value is `routeBest`; with no encoded
queries the loop never runs and the dict stays empty.  The loop nesting order
only affects which iteration raises first, not the resulting value or the
raised exception, so the route-outer fold below is observationally equal. -/
def bestScores (rm : List (String × List Vec)) (encQs : List Vec) :
    Except Err (List (String × ℚ)) :=
  match encQs with
  | [] => .ok []
  | _ => exceptMap (scoreEntry encQs) rm

/-- `(i, name, score)` decoration used to model `heapq.nlargest`'s tie-break:
CPython compares `(key, order)` with `order` a decreasing counter, so the
result is ordered by score descending and, on equal scores, by original
position ascending. -/
def decorate (i : Nat) : List (String × ℚ) → List (Nat × String × ℚ)
  | [] => []
  | p :: rest => (i, p.1, p.2) :: decorate (i + 1) rest

/-- The total preorder `heapq.nlargest` sorts by: larger score first, equal
scores ordered by smaller original index first. -/
def heapRel (a b : Nat × String × ℚ) : Prop :=
  b.2.2 < a.2.2 ∨ (a.2.2 = b.2.2 ∧ a.1 ≤ b.1)

instance : DecidableRel heapRel := fun a b =>
  inferInstanceAs (Decidable (b.2.2 < a.2.2 ∨ (a.2.2 = b.2.2 ∧ a.1 ≤ b.1)))

instance : IsTotal (Nat × String × ℚ) heapRel := by
  constructor
  intro a b
  rcases lt_trichotomy a.2.2 b.2.2 with h | h | h
  · exact Or.inr (Or.inl h)
  · rcases Nat.le_total a.1 b.1 with hi | hi
    · exact Or.inl (Or.inr ⟨h, hi⟩)
    · exact Or.inr (Or.inr ⟨h.symm, hi⟩)
  · exact Or.inl (Or.inl h)

instance : IsTrans (Nat × String × ℚ) heapRel := by
  constructor
  intro a b c hab hbc
  rcases hab with hab | ⟨hab, iab⟩ <;> rcases hbc with hbc | ⟨hbc, ibc⟩
  · exact Or.inl (hbc.trans hab)
  · exact Or.inl (hbc ▸ hab)
  · exact Or.inl (hab ▸ hbc)
  · exact Or.inr ⟨hab.trans hbc, iab.trans ibc⟩

/-- The ranking of all routes before truncation: `best_scores.items()` sorted
stably by score descending (what `heapq.nlargest` returns when `top_k` covers
the whole dict). -/
def rankedAll (bs : List (String × ℚ)) : List (String × ℚ) :=
  ((decorate 0 bs).insertionSort heapRel).map (fun x => x.2)

/-- Position of a route name in the catalog order (0-based); the order that
breaks score ties. -/
def idxOfS : List String → String → Nat
  | [], _ => 0
  | a :: as, n => if a = n then 0 else idxOfS as n + 1

/-- The order in which `nlargest` emits entries: score descending, ties by
catalog position of the route name. -/
def tieOrd (names : List String) (p1 p2 : String × ℚ) : Prop :=
  p2.2 ≤ p1.2 ∧ (p1.2 = p2.2 → idxOfS names p1.1 < idxOfS names p2.1)

/-- `heapq.nlargest(top_k, best_scores.items(), key=score)` followed by the
undecoration: stable descending selection of the first `top_k` entries.
`nlargest` returns `[]` for any `n <= 0`, matching `Int.toNat`. -/
def nlargest (k : Int) (bs : List (String × ℚ)) : List (String × ℚ) :=
  (rankedAll bs).take k.toNat

/-- One element of the list returned by `_find_top_k_closest_routes`
(`router.py:113-116`): `{"rank": idx, "route_name": name,
"cosine_similarity": score}`. -/
structure RouteMatch where
  rank : Nat
  route_name : String
  cosine_similarity : ℚ
  deriving DecidableEq, Repr

/-- The `enumerate` of `router.py:115`, attaching 0-based ranks. -/
def toMatches (i : Nat) : List (String × ℚ) → List RouteMatch
  | [] => []
  | p :: rest => ⟨i, p.1, p.2⟩ :: toMatches (i + 1) rest

/-- `_find_top_k_closest_routes` (`router.py:84-116`). -/
def findTopK (r : Router) (queries : List String) : Except Err (List RouteMatch) :=
  match bestScores r.routerMap (r.encoder.encode queries) with
  | .error e => .error e
  | .ok bs => .ok (toMatches 0 (nlargest r.topK bs))

/-- One element of the list returned by `SemanticRouter.route`
(`router.py:137`): `{"query": query, "route": matches}`. -/
structure QueryResult where
  query : String
  route : List RouteMatch
  deriving DecidableEq, Repr

/-- `SemanticRouter.route` (`router.py:118-139`) on a sequence of query
strings: one `_find_top_k_closest_routes([query])` call per query, in input
order.  (The single-string overload wraps the string in a one-element list;
non-sequence inputs raise `TypeError` before this point.) -/
def route (r : Router) (queries : List String) : Except Err (List QueryResult) :=
  exceptMap
    (fun q =>
      match findTopK r [q] with
      | .error e => .error e
      | .ok ms => .ok ⟨q, ms⟩)
    queries

/-! ### Infrastructure lemmas -/

theorem exceptMap_forall₂ {f : α → Except Err β} :
    ∀ {l : List α} {bl : List β},
      exceptMap f l = .ok bl → List.Forall₂ (fun a b => f a = .ok b) l bl := by
  intro l
  induction l with
  | nil =>
    intro bl h
    simp only [exceptMap] at h
    cases h
    exact List.Forall₂.nil
  | cons a as ih =>
    intro bl h
    simp only [exceptMap] at h
    cases hfa : f a with
    | error e => rw [hfa] at h; cases h
    | ok b =>
      rw [hfa] at h
      cases hrec : exceptMap f as with
      | error e => rw [hrec] at h; cases h
      | ok bs =>
        rw [hrec] at h
        cases h
        exact List.Forall₂.cons hfa (ih hrec)

theorem exceptMap_ok_of_forall {f : α → Except Err β} :
    ∀ {l : List α}, (∀ a ∈ l, ∃ b, f a = .ok b) →
      ∃ bl, exceptMap f l = .ok bl := by
  intro l
  induction l with
  | nil => intro _; exact ⟨[], rfl⟩
  | cons a as ih =>
    intro h
    obtain ⟨b, hb⟩ := h a (List.mem_cons_self a as)
    obtain ⟨bs, hbs⟩ := ih (fun x hx => h x (List.mem_cons_of_mem a hx))
    exact ⟨b :: bs, by simp only [exceptMap, hb, hbs]⟩

theorem decorate_map_snd : ∀ (i : Nat) (l : List (String × ℚ)),
    (decorate i l).map (fun x => x.2) = l := by
  intro i l
  induction l generalizing i with
  | nil => rfl
  | cons p rest ih => simp [decorate, ih]

theorem decorate_length : ∀ (i : Nat) (l : List (String × ℚ)),
    (decorate i l).length = l.length := by
  intro i l
  induction l generalizing i with
  | nil => rfl
  | cons p rest ih => simp [decorate, ih]

theorem mem_decorate : ∀ {i : Nat} {l : List (String × ℚ)}
    {x : Nat × String × ℚ}, x ∈ decorate i l →
      i ≤ x.1 ∧ l[x.1 - i]? = some x.2 := by
  intro i l
  induction l generalizing i with
  | nil => intro x hx; cases hx
  | cons p rest ih =>
    intro x hx
    rcases List.mem_cons.1 hx with h | h
    · subst h
      refine ⟨Nat.le_refl i, ?_⟩
      simp
    · obtain ⟨h1, h2⟩ := ih h
      refine ⟨Nat.le_of_succ_le h1, ?_⟩
      have hgt : i < x.1 := h1
      have : x.1 - i = (x.1 - (i + 1)) + 1 := by omega
      rw [this]
      simpa using h2

theorem decorate_pairwise_lt : ∀ (i : Nat) (l : List (String × ℚ)),
    List.Pairwise (fun a b => a.1 < b.1) (decorate i l) := by
  intro i l
  induction l generalizing i with
  | nil => exact List.Pairwise.nil
  | cons p rest ih =>
    refine List.Pairwise.cons ?_ (ih (i + 1))
    intro x hx
    exact Nat.lt_of_succ_le (mem_decorate hx).1

theorem toMatches_length : ∀ (i : Nat) (l : List (String × ℚ)),
    (toMatches i l).length = l.length := by
  intro i l
  induction l generalizing i with
  | nil => rfl
  | cons p rest ih => simp [toMatches, ih]

theorem toMatches_map_rank : ∀ (i : Nat) (l : List (String × ℚ)),
    (toMatches i l).map (fun m => m.rank) = List.range' i l.length := by
  intro i l
  induction l generalizing i with
  | nil => rfl
  | cons p rest ih => simp [toMatches, List.range', ih]

theorem mem_toMatches : ∀ {i : Nat} {l : List (String × ℚ)} {m : RouteMatch},
    m ∈ toMatches i l → (m.route_name, m.cosine_similarity) ∈ l := by
  intro i l
  induction l generalizing i with
  | nil => intro m hm; cases hm
  | cons p rest ih =>
    intro m hm
    rcases List.mem_cons.1 hm with h | h
    · subst h; exact List.mem_cons_self _ _
    · exact List.mem_cons_of_mem _ (ih h)

theorem toMatches_map_pair : ∀ (i : Nat) (l : List (String × ℚ)),
    (toMatches i l).map (fun m => (m.route_name, m.cosine_similarity)) = l := by
  intro i l
  induction l generalizing i with
  | nil => rfl
  | cons p rest ih => simp [toMatches, ih]

theorem toMatches_pairwise {R : (String × ℚ) → (String × ℚ) → Prop} :
    ∀ {i : Nat} {l : List (String × ℚ)}, List.Pairwise R l →
      List.Pairwise
        (fun m1 m2 =>
          R (m1.route_name, m1.cosine_similarity)
            (m2.route_name, m2.cosine_similarity))
        (toMatches i l) := by
  intro i l
  induction l generalizing i with
  | nil => intro _; exact List.Pairwise.nil
  | cons p rest ih =>
    intro h
    rcases List.pairwise_cons.1 h with ⟨hp, hrest⟩
    refine List.Pairwise.cons ?_ (ih hrest)
    intro m hm
    simpa using hp _ (mem_toMatches hm)

theorem idxOfS_getElem? : ∀ {l : List String} {i : Nat} {n : String},
    l.Nodup → l[i]? = some n → idxOfS l n = i := by
  intro l
  induction l with
  | nil => intro i n _ h; simp at h
  | cons a as ih =>
    intro i n hnd h
    rcases List.nodup_cons.1 hnd with ⟨hna, hnd'⟩
    cases i with
    | zero =>
      simp only [List.getElem?_cons_zero, Option.some.injEq] at h
      subst h
      simp [idxOfS]
    | succ j =>
      simp only [List.getElem?_cons_succ] at h
      have hmem : n ∈ as := by
        have := List.getElem?_eq_some.1 h
        obtain ⟨hlt, hget⟩ := this
        exact hget ▸ List.getElem_mem hlt
      have hne : a ≠ n := fun hcontra => hna (hcontra ▸ hmem)
      simp [idxOfS, hne, ih hnd' h]

theorem foldl_max_lower : ∀ (ss : List ℚ) (init : ℚ),
    init ≤ ss.foldl (fun acc s => max s acc) init := by
  intro ss
  induction ss with
  | nil => intro init; exact le_refl init
  | cons s rest ih =>
    intro init
    exact le_trans (le_max_right s init) (ih (max s init))

theorem maxSimGo_ok {q : Vec} :
    ∀ {rest : List Vec} (acc : ℚ),
      (∀ e ∈ rest, ∃ c, cosineSimilarity q e = .ok c) →
      ∃ s, maxSimGo q acc rest = .ok s := by
  intro rest
  induction rest with
  | nil => intro acc _; exact ⟨acc, rfl⟩
  | cons e es ih =>
    intro acc h
    obtain ⟨c, hc⟩ := h e (List.mem_cons_self e es)
    obtain ⟨s, hs⟩ := ih (max acc c) (fun x hx => h x (List.mem_cons_of_mem e hx))
    exact ⟨s, by simp only [maxSimGo, hc, hs]⟩

theorem maxSimExs_ok {q : Vec} {exs : List Vec} (hne : exs ≠ [])
    (h : ∀ e ∈ exs, ∃ c, cosineSimilarity q e = .ok c) :
    ∃ s, maxSimExs q exs = .ok s := by
  cases exs with
  | nil => exact absurd rfl hne
  | cons e es =>
    obtain ⟨c, hc⟩ := h e (List.mem_cons_self e es)
    obtain ⟨s, hs⟩ := maxSimGo_ok c (fun x hx => h x (List.mem_cons_of_mem e hx))
    exact ⟨s, by simp only [maxSimExs, hc, hs]⟩

theorem cosineSimilarity_ok_of_length {q e : Vec} (h : q.length = e.length) :
    ∃ c, cosineSimilarity q e = .ok c := by
  refine ⟨(List.zipWith (fun x y => x * y) q e).sum /
    (magnitude q * magnitude e + epsQ), ?_⟩
  simp [cosineSimilarity, dot, h]

theorem routeBest_nonneg {encQs exs : List Vec} {s : ℚ}
    (h : routeBest encQs exs = .ok s) : 0 ≤ s := by
  unfold routeBest at h
  cases hm : exceptMap (fun q => maxSimExs q exs) encQs with
  | error e => rw [hm] at h; cases h
  | ok ss =>
    rw [hm] at h
    cases h
    exact foldl_max_lower ss 0

theorem routeBest_singleton {v : Vec} {exs : List Vec} {s : ℚ}
    (h : maxSimExs v exs = .ok s) : routeBest [v] exs = .ok (max s 0) := by
  simp only [routeBest, exceptMap, h, List.foldl]

theorem routeBest_ok_of {v : Vec} {exs : List Vec} (hne : exs ≠ [])
    (h : ∀ e ∈ exs, ∃ c, cosineSimilarity v e = .ok c) :
    ∃ s, routeBest [v] exs = .ok s := by
  obtain ⟨m, hm⟩ := maxSimExs_ok hne h
  exact ⟨max m 0, routeBest_singleton hm⟩

theorem scoreEntry_ok {encQs : List Vec} {p : String × List Vec}
    {q : String × ℚ} (h : scoreEntry encQs p = .ok q) :
    q.1 = p.1 ∧ routeBest encQs p.2 = .ok q.2 := by
  unfold scoreEntry at h
  cases hrb : routeBest encQs p.2 with
  | error e => rw [hrb] at h; cases h
  | ok s => rw [hrb] at h; cases h; exact ⟨rfl, rfl⟩

theorem bestScores_forall₂ {rm : List (String × List Vec)} {v : Vec}
    {vs : List Vec} {bs : List (String × ℚ)}
    (h : bestScores rm (v :: vs) = .ok bs) :
    List.Forall₂ (fun p q => scoreEntry (v :: vs) p = .ok q) rm bs :=
  exceptMap_forall₂ h

theorem forall₂_scoreEntry_fst {encQs : List Vec} :
    ∀ {rm : List (String × List Vec)} {bs : List (String × ℚ)},
      List.Forall₂ (fun p q => scoreEntry encQs p = .ok q) rm bs →
      bs.map Prod.fst = rm.map Prod.fst := by
  intro rm bs hf
  induction hf with
  | nil => rfl
  | cons hpq _ ih =>
    simp only [List.map_cons, List.cons.injEq]
    exact ⟨(scoreEntry_ok hpq).1, ih⟩

theorem bestScores_fst {rm : List (String × List Vec)} {v : Vec}
    {vs : List Vec} {bs : List (String × ℚ)}
    (h : bestScores rm (v :: vs) = .ok bs) :
    bs.map Prod.fst = rm.map Prod.fst :=
  forall₂_scoreEntry_fst (bestScores_forall₂ h)

theorem forall₂_mem_right {R : α → β → Prop} :
    ∀ {l₁ : List α} {l₂ : List β}, List.Forall₂ R l₁ l₂ →
      ∀ {b : β}, b ∈ l₂ → ∃ a ∈ l₁, R a b := by
  intro l₁ l₂ h
  induction h with
  | nil => intro b hb; cases hb
  | cons hab _ ih =>
    intro b hb
    rcases List.mem_cons.1 hb with h | h
    · subst h; exact ⟨_, List.mem_cons_self _ _, hab⟩
    · obtain ⟨a, ha, har⟩ := ih h
      exact ⟨a, List.mem_cons_of_mem _ ha, har⟩

theorem bestScores_mem_nonneg {rm : List (String × List Vec)}
    {encQs : List Vec} {bs : List (String × ℚ)}
    (h : bestScores rm encQs = .ok bs) :
    ∀ p ∈ bs, 0 ≤ p.2 := by
  cases encQs with
  | nil =>
    simp only [bestScores] at h
    cases h
    intro p hp
    cases hp
  | cons v vs =>
    intro p hp
    have hf := bestScores_forall₂ h
    obtain ⟨a, _, ha⟩ := forall₂_mem_right hf hp
    exact routeBest_nonneg (scoreEntry_ok ha).2

theorem rankedAll_perm (bs : List (String × ℚ)) : (rankedAll bs).Perm bs := by
  have h1 := (List.perm_insertionSort heapRel (decorate 0 bs)).map
    (fun x : Nat × String × ℚ => x.2)
  rw [decorate_map_snd] at h1
  exact h1

theorem nlargest_subset {k : Int} {bs : List (String × ℚ)} :
    ∀ p ∈ nlargest k bs, p ∈ bs := by
  intro p hp
  exact (rankedAll_perm bs).mem_iff.1 (List.take_subset _ _ hp)

theorem nlargest_length (k : Int) (bs : List (String × ℚ)) :
    (nlargest k bs).length = min k.toNat bs.length := by
  simp [nlargest, (rankedAll_perm bs).length_eq]

theorem sorted_decorate (bs : List (String × ℚ)) :
    List.Pairwise heapRel ((decorate 0 bs).insertionSort heapRel) :=
  List.sorted_insertionSort heapRel (decorate 0 bs)

theorem decorate_sort_ne (bs : List (String × ℚ)) :
    List.Pairwise (fun a b : Nat × String × ℚ => a.1 ≠ b.1)
      ((decorate 0 bs).insertionSort heapRel) := by
  have hd : List.Pairwise (fun a b : Nat × String × ℚ => a.1 ≠ b.1)
      (decorate 0 bs) :=
    (decorate_pairwise_lt 0 bs).imp (fun h => Nat.ne_of_lt h)
  exact ((List.perm_insertionSort heapRel (decorate 0 bs)).pairwise_iff
    (fun h => Ne.symm h)).2 hd

theorem decorate_sort_idx {bs : List (String × ℚ)}
    (hnd : (bs.map Prod.fst).Nodup) :
    ∀ x ∈ (decorate 0 bs).insertionSort heapRel,
      idxOfS (bs.map Prod.fst) x.2.1 = x.1 := by
  intro x hx
  have hxd : x ∈ decorate 0 bs :=
    (List.perm_insertionSort heapRel (decorate 0 bs)).mem_iff.1 hx
  have h2 := (mem_decorate hxd).2
  rw [Nat.sub_zero] at h2
  have hmap : (bs.map Prod.fst)[x.1]? = some x.2.1 := by
    rw [List.getElem?_map, h2]
    rfl
  exact idxOfS_getElem? hnd hmap

theorem rankedAll_pairwise {bs : List (String × ℚ)}
    (hnd : (bs.map Prod.fst).Nodup) :
    List.Pairwise (tieOrd (bs.map Prod.fst)) (rankedAll bs) := by
  have hS := (sorted_decorate bs).and (decorate_sort_ne bs)
  have hS' : List.Pairwise
      (fun a b : Nat × String × ℚ =>
        tieOrd (bs.map Prod.fst) a.2 b.2)
      ((decorate 0 bs).insertionSort heapRel) := by
    refine hS.imp_of_mem ?_
    intro a b ha hb hab
    obtain ⟨hr, hne⟩ := hab
    have hia := decorate_sort_idx hnd a ha
    have hib := decorate_sort_idx hnd b hb
    constructor
    · rcases hr with h | ⟨h, _⟩
      · exact le_of_lt h
      · exact le_of_eq h.symm
    · intro heq
      rcases hr with h | ⟨_, hle⟩
      · exact absurd heq (ne_of_gt h)
      · rw [hia, hib]
        exact Nat.lt_of_le_of_ne hle hne
  have := List.pairwise_map.2 hS'
  exact this

theorem nlargest_pairwise {k : Int} {bs : List (String × ℚ)}
    (hnd : (bs.map Prod.fst).Nodup) :
    List.Pairwise (tieOrd (bs.map Prod.fst)) (nlargest k bs) :=
  (rankedAll_pairwise hnd).sublist (List.take_sublist _ _)

theorem nlargest_excluded {k : Int} {bs : List (String × ℚ)}
    (hnd : (bs.map Prod.fst).Nodup) {p : String × ℚ} (hp : p ∈ bs)
    (hout : p ∉ nlargest k bs) :
    ∀ x ∈ nlargest k bs, tieOrd (bs.map Prod.fst) x p := by
  intro x hx
  have hsplit : rankedAll bs = nlargest k bs ++ (rankedAll bs).drop k.toNat :=
    (List.take_append_drop k.toNat (rankedAll bs)).symm
  have hpw := rankedAll_pairwise hnd
  rw [hsplit] at hpw
  have hdrop : p ∈ (rankedAll bs).drop k.toNat := by
    have hpr : p ∈ rankedAll bs := (rankedAll_perm bs).mem_iff.2 hp
    rw [hsplit] at hpr
    rcases List.mem_append.1 hpr with h | h
    · exact absurd h hout
    · exact h
  exact (List.pairwise_append.1 hpw).2.2 x hx p hdrop

theorem findTopK_ok_iff {r : Router} {qs : List String}
    {ms : List RouteMatch} :
    findTopK r qs = .ok ms ↔
      ∃ bs, bestScores r.routerMap (r.encoder.encode qs) = .ok bs ∧
        ms = toMatches 0 (nlargest r.topK bs) := by
  unfold findTopK
  cases h : bestScores r.routerMap (r.encoder.encode qs) with
  | error e =>
    constructor
    · intro hc; cases hc
    · rintro ⟨bs, hbs, _⟩; cases hbs
  | ok bs =>
    constructor
    · intro hc
      cases hc
      exact ⟨bs, rfl, rfl⟩
    · rintro ⟨bs', hbs', hm⟩
      cases hbs'
      rw [hm]

theorem route_forall₂ {r : Router} {qs : List String}
    {res : List QueryResult} (h : route r qs = .ok res) :
    List.Forall₂
      (fun q x => x.query = q ∧ findTopK r [q] = .ok x.route) qs res := by
  refine (exceptMap_forall₂ h).imp ?_
  intro q x hqx
  cases hft : findTopK r [q] with
  | error e => rw [hft] at hqx; cases hqx
  | ok ms => rw [hft] at hqx; cases hqx; exact ⟨rfl, rfl⟩

theorem forall₂_query_eq {P : String → QueryResult → Prop} :
    ∀ {qs : List String} {res : List QueryResult},
      List.Forall₂ (fun q x => x.query = q ∧ P q x) qs res →
      res.map (fun x => x.query) = qs := by
  intro qs res hf
  induction hf with
  | nil => rfl
  | cons hqx _ ih =>
    simp only [List.map_cons, List.cons.injEq]
    exact ⟨hqx.1, ih⟩

theorem route_ok_queries {r : Router} {qs : List String}
    {res : List QueryResult} (h : route r qs = .ok res) :
    res.map (fun x => x.query) = qs :=
  forall₂_query_eq (route_forall₂ h)

theorem route_ok_mem {r : Router} {qs : List String}
    {res : List QueryResult} (h : route r qs = .ok res) :
    ∀ x ∈ res, findTopK r [x.query] = .ok x.route := by
  intro x hx
  obtain ⟨q, _, hq⟩ := forall₂_mem_right (route_forall₂ h) hx
  rw [hq.1]
  exact hq.2

theorem route_ok_of_forall {r : Router} {qs : List String}
    (h : ∀ q ∈ qs, ∃ ms, findTopK r [q] = .ok ms) :
    ∃ res, route r qs = .ok res := by
  refine exceptMap_ok_of_forall ?_
  intro q hq
  obtain ⟨ms, hms⟩ := h q hq
  exact ⟨⟨q, ms⟩, by simp only [hms]⟩

theorem buildRouter_ok {enc : Encoder} {routes : List Route} {k : Int}
    {r : Router} (h : buildRouter enc routes k = .ok r) :
    r.encoder = enc ∧ r.routes = routes ∧ r.topK = k ∧
      r.routerMap = routes.map (fun rt => (rt.name, enc.encode rt.examples)) ∧
      (routes.map Route.name).Nodup ∧ routes ≠ [] := by
  unfold buildRouter at h
  split_ifs at h with h1 h2 h3 h4
  cases h
  refine ⟨rfl, rfl, rfl, rfl, h2, ?_⟩
  intro hcontra
  rw [hcontra] at h1
  exact h1 rfl

theorem routerMap_fst (enc : Encoder) (routes : List Route) :
    (routes.map (fun rt => (rt.name, enc.encode rt.examples))).map Prod.fst =
      routes.map Route.name := by
  induction routes with
  | nil => rfl
  | cons rt rest ih => simp [ih]

theorem zipWith_sub_self : ∀ a : Vec,
    List.zipWith (fun u v => u - v) a a = List.replicate a.length (0 : ℚ) := by
  intro a
  induction a with
  | nil => rfl
  | cons x rest ih => simp [ih, List.replicate_succ]

theorem sqrtQ_zero : sqrtQ 0 = 0 := by
  simp [sqrtQ]

theorem magnitude_replicate_zero (n : Nat) :
    magnitude (List.replicate n (0 : ℚ)) = 0 := by
  unfold magnitude
  rw [List.map_replicate]
  simp [sqrtQ_zero]

theorem subV_self (a : Vec) : subV a a = .ok (List.replicate a.length (0 : ℚ)) := by
  simp [subV, npBroadcast, zipWith_sub_self]

theorem npBroadcast_error {a b : Vec} (hne : a.length ≠ b.length)
    (ha : a.length ≠ 1) (hb : b.length ≠ 1) :
    npBroadcast a b = .error .broadcastError := by
  rcases a with _ | ⟨x, _ | ⟨x2, as⟩⟩
  · rcases b with _ | ⟨y, _ | ⟨y2, bs⟩⟩
    · exact absurd rfl hne
    · exact absurd rfl hb
    · unfold npBroadcast
      rw [if_neg hne]
  · exact absurd rfl ha
  · rcases b with _ | ⟨y, _ | ⟨y2, bs⟩⟩
    · unfold npBroadcast
      rw [if_neg hne]
    · exact absurd rfl hb
    · unfold npBroadcast
      rw [if_neg hne]

theorem forall₂_mem_left {R : α → β → Prop} :
    ∀ {l₁ : List α} {l₂ : List β}, List.Forall₂ R l₁ l₂ →
      ∀ {a : α}, a ∈ l₁ → ∃ b ∈ l₂, R a b := by
  intro l₁ l₂ h
  induction h with
  | nil => intro a ha; cases ha
  | cons hab _ ih =>
    intro a ha
    rcases List.mem_cons.1 ha with h | h
    · subst h; exact ⟨_, List.mem_cons_self _ _, hab⟩
    · obtain ⟨b, hb, hbr⟩ := ih h
      exact ⟨b, List.mem_cons_of_mem _ hb, hbr⟩

theorem toMatches_map_name : ∀ (i : Nat) (l : List (String × ℚ)),
    (toMatches i l).map (fun m => m.route_name) = l.map Prod.fst := by
  intro i l
  induction l generalizing i with
  | nil => rfl
  | cons p rest ih => simp [toMatches, ih]

theorem bestScores_cons (rm : List (String × List Vec)) (v : Vec)
    (vs : List Vec) :
    bestScores rm (v :: vs) = exceptMap (scoreEntry (v :: vs)) rm := rfl

theorem scores_lookup_aux {q : Vec} {name : String} {exs : List Vec} {s : ℚ} :
    ∀ {rm : List (String × List Vec)} {bs : List (String × ℚ)},
      (rm.map Prod.fst).Nodup → (name, exs) ∈ rm →
      exceptMap (scoreEntry [q]) rm = .ok bs →
      maxSimExs q exs = .ok s →
      bs.lookup name = some (max s 0) := by
  intro rm
  induction rm with
  | nil => intro bs _ hmem; cases hmem
  | cons p rest ih =>
    intro bs hnd hmem hmap hs
    simp only [exceptMap] at hmap
    cases hse : scoreEntry [q] p with
    | error e => rw [hse] at hmap; cases hmap
    | ok b =>
      rw [hse] at hmap
      cases hrec : exceptMap (scoreEntry [q]) rest with
      | error e => rw [hrec] at hmap; cases hmap
      | ok bsr =>
        rw [hrec] at hmap
        cases hmap
        obtain ⟨b1, b2⟩ := b
        rcases List.mem_cons.1 hmem with heq | hmem'
        · have hok := scoreEntry_ok hse
          rw [← heq] at hok
          have hrb : routeBest [q] exs = .ok (max s 0) := routeBest_singleton hs
          rw [hok.2] at hrb
          have hb2 : b2 = max s 0 := Except.ok.inj hrb
          have hb1 : b1 = name := hok.1
          subst hb1
          subst hb2
          simp [List.lookup]
        · have hnd' := hnd
          rw [List.map_cons, List.nodup_cons] at hnd'
          have hne : b1 ≠ name := by
            have hb1 : b1 = p.1 := (scoreEntry_ok hse).1
            intro hcontra
            apply hnd'.1
            rw [← hb1, hcontra]
            exact List.mem_map.2 ⟨(name, exs), hmem', rfl⟩
          have hbeq : (name == b1) = false := by
            simp [Ne.symm hne]
          simp only [List.lookup, hbeq]
          exact ih hnd'.2 hmem' hrec hs

/-! ### Claims -/

/-- C7: for every pair of vectors, `distance` with a metric name outside
{"euclidean", "cosine", "manhattan"} fails with the unsupported-metric
`ValueError` (the model's InvalidArgument) and never returns a numeric
default. -/
theorem c7_unsupported_metric_fails (a b : Vec) (m : String)
    (h1 : m ≠ "euclidean") (h2 : m ≠ "cosine") (h3 : m ≠ "manhattan") :
    distance a b m = .error .unsupportedMetric := by
  simp [distance, h1, h2, h3]

theorem c7_witness :
    ("chebyshev" ≠ "euclidean" ∧ "chebyshev" ≠ "cosine" ∧
      "chebyshev" ≠ "manhattan") ∧
    distance [(1 : ℚ), 2] [3, 4] "chebyshev" = .error .unsupportedMetric :=
  ⟨⟨by decide, by decide, by decide⟩,
    c7_unsupported_metric_fails [(1 : ℚ), 2] [3, 4] "chebyshev"
      (by decide) (by decide) (by decide)⟩

/-- C8 (amended): `distance(a, a, metric) = 0` holds for the euclidean and
manhattan metrics for every vector `a`; it fails for the cosine metric, whose
self-distance is `eps / (|a|^2 + eps) > 0` (equal to 1 for a zero vector)
because of the epsilon added to the cosine denominator. -/
theorem c8_self_distance_zero (a : Vec) :
    distance a a "euclidean" = .ok 0 ∧ distance a a "manhattan" = .ok 0 := by
  constructor
  · simp [distance, subV_self, magnitude_replicate_zero]
  · have habs :
        ((List.replicate a.length (0 : ℚ)).map (fun x => |x|)).sum = 0 := by
      rw [List.map_replicate]
      simp
    simp [distance, subV_self, habs]

/-- C8 counterexample: on the code, `distance(a, a, "cosine")` is not 0: for
the zero vector `[0]` the cosine self-similarity is `0 / (0 + 1e-12) = 0`, so
the cosine self-distance is `1`, not `0`.  (The claim quantifies over every
supported metric; "cosine" is supported.) -/
theorem c8_counterexample :
    distance [(0 : ℚ)] [(0 : ℚ)] "cosine" = .ok 1 ∧ (1 : ℚ) ≠ 0 := by
  refine ⟨?_, by norm_num⟩
  have h1 : ¬ (("cosine" : String) = "euclidean") := by decide
  unfold distance
  rw [if_neg h1, if_pos rfl]
  norm_num [cosineSimilarity, dot, magnitude, sqrtQ, epsQ]

/-- C9 (amended): on vectors of differing length, `dot`, `cosine_similarity`
and cosine-metric `distance` always fail; elementwise `add`/`subtract` and
euclidean/manhattan `distance` fail when neither operand has length 1, but
silently broadcast a single-element operand (numpy broadcasting). -/
theorem c9_dim_mismatch_fails (a b : Vec) (hne : a.length ≠ b.length) :
    dot a b = .error .dimMismatch ∧
    cosineSimilarity a b = .error .dimMismatch ∧
    distance a b "cosine" = .error .dimMismatch ∧
    (a.length ≠ 1 → b.length ≠ 1 →
      addV a b = .error .broadcastError ∧
      subV a b = .error .broadcastError ∧
      distance a b "euclidean" = .error .broadcastError ∧
      distance a b "manhattan" = .error .broadcastError) := by
  have hdot : dot a b = .error .dimMismatch := by simp [dot, hne]
  have hcos : cosineSimilarity a b = .error .dimMismatch := by
    simp [cosineSimilarity, hdot]
  refine ⟨hdot, hcos, ?_, ?_⟩
  · simp [distance, hcos]
  · intro ha hb
    have hbr := npBroadcast_error hne ha hb
    exact ⟨by simp [addV, hbr], by simp [subV, hbr],
      by simp [distance, subV, hbr], by simp [distance, subV, hbr]⟩

theorem c9_witness :
    (([(1 : ℚ), 2, 3].length ≠ [(4 : ℚ), 5].length) ∧
      [(1 : ℚ), 2, 3].length ≠ 1 ∧ [(4 : ℚ), 5].length ≠ 1) ∧
    dot [(1 : ℚ), 2, 3] [4, 5] = .error .dimMismatch ∧
    cosineSimilarity [(1 : ℚ), 2, 3] [4, 5] = .error .dimMismatch ∧
    distance [(1 : ℚ), 2, 3] [4, 5] "cosine" = .error .dimMismatch ∧
    addV [(1 : ℚ), 2, 3] [4, 5] = .error .broadcastError ∧
    subV [(1 : ℚ), 2, 3] [4, 5] = .error .broadcastError ∧
    distance [(1 : ℚ), 2, 3] [4, 5] "euclidean" = .error .broadcastError ∧
    distance [(1 : ℚ), 2, 3] [4, 5] "manhattan" = .error .broadcastError := by
  have h := c9_dim_mismatch_fails [(1 : ℚ), 2, 3] [4, 5] (by decide)
  have h4 := h.2.2.2 (by decide) (by decide)
  exact ⟨⟨by decide, by decide, by decide⟩, h.1, h.2.1, h.2.2.1,
    h4.1, h4.2.1, h4.2.2.1, h4.2.2.2⟩

/-- C9 counterexample: combining a length-1 vector with a length-3 vector via
`__add__` does not fail: numpy silently broadcasts the single element, so
`[5] + [1, 2, 3] = [6, 7, 8]`. -/
theorem c9_counterexample :
    addV [(5 : ℚ)] [1, 2, 3] = .ok [6, 7, 8] ∧
    [(5 : ℚ)].length ≠ [(1 : ℚ), 2, 3].length := by
  refine ⟨?_, by decide⟩
  norm_num [addV, npBroadcast, List.replicate]

/-- C1 (amended): for a route with at least one example, the score recorded
for it in `best_scores` is the maximum of the example cosine similarities
clamped below at 0 — `max(0, max over examples of cosine_similarity)` — not
the raw maximum: `best_scores.get(route_name, 0.0)` starts the running
maximum at `0.0`, so a negative best similarity is replaced by 0. -/
theorem c1_score_clamped {rm : List (String × List Vec)} {q : Vec}
    {bs : List (String × ℚ)} {name : String} {exs : List Vec} {s : ℚ}
    (hnd : (rm.map Prod.fst).Nodup) (hmem : (name, exs) ∈ rm)
    (hbs : bestScores rm [q] = .ok bs) (hs : maxSimExs q exs = .ok s) :
    bs.lookup name = some (max s 0) :=
  scores_lookup_aux hnd hmem hbs hs

def c1wRm : List (String × List Vec) := [("r", [[1]])]

theorem c1_witness :
    (c1wRm.map Prod.fst).Nodup ∧
    ("r", [[(1 : ℚ)]]) ∈ c1wRm ∧
    bestScores c1wRm [[1]] =
      .ok [("r", max (1000000000000 / 1000000000001 : ℚ) 0)] ∧
    maxSimExs [1] [[1]] = .ok (1000000000000 / 1000000000001 : ℚ) ∧
    List.lookup "r" [("r", max (1000000000000 / 1000000000001 : ℚ) 0)] =
      some (max (1000000000000 / 1000000000001 : ℚ) 0) := by
  have hnd : (c1wRm.map Prod.fst).Nodup := by simp [c1wRm]
  have hmem : ("r", [[(1 : ℚ)]]) ∈ c1wRm := List.mem_singleton.2 rfl
  have hs : maxSimExs [1] [[1]] = .ok (1000000000000 / 1000000000001 : ℚ) := by
    norm_num [maxSimExs, maxSimGo, cosineSimilarity, dot, magnitude, sqrtQ,
      epsQ]
  have hbs : bestScores c1wRm [[1]] =
      .ok [("r", max (1000000000000 / 1000000000001 : ℚ) 0)] := by
    norm_num [bestScores, exceptMap, scoreEntry, routeBest, maxSimExs,
      maxSimGo, cosineSimilarity, dot, magnitude, sqrtQ, epsQ, c1wRm]
  exact ⟨hnd, hmem, hbs, hs, c1_score_clamped hnd hmem hbs hs⟩

def c1encoder : Encoder :=
  ⟨true, fun ts => ts.map (fun t => if t = "ex" then [(1 : ℚ)] else [(-1 : ℚ)])⟩

def c1routes : List Route := [⟨"r", "d", ["ex"]⟩]

def c1router : Router :=
  { encoder := c1encoder, routes := c1routes, topK := 5,
    routerMap := [("r", [[1]])] }

/-- C1 counterexample: a built router whose single route has exactly one
example vector `[1]`, queried with a query encoded to `[-1]`.  The maximum
example cosine similarity is `-(10^12/(10^12+1)) < 0`, but the returned score
for the route is `0`, not that maximum: the claim fails in the negative case
because `router.py:106` clamps with `best_scores.get(route_name, 0.0)`. -/
theorem c1_counterexample :
    buildRouter c1encoder c1routes 5 = .ok c1router ∧
    c1encoder.encode ["q"] = [[-1]] ∧
    maxSimExs [-1] [[1]] = .ok (-(1000000000000 / 1000000000001 : ℚ)) ∧
    (-(1000000000000 / 1000000000001 : ℚ)) < 0 ∧
    route c1router ["q"] = .ok [⟨"q", [⟨0, "r", 0⟩]⟩] ∧
    (0 : ℚ) ≠ -(1000000000000 / 1000000000001 : ℚ) := by
  have henc : c1encoder.encode ["q"] = [[-1]] := by
    simp only [c1encoder, List.map]
    rw [if_neg (by decide : ¬ ("q" : String) = "ex")]
  have hroute : route c1router ["q"] = .ok [⟨"q", [⟨0, "r", 0⟩]⟩] := by
    have hbs : bestScores c1router.routerMap [[-1]] = .ok [("r", 0)] := by
      norm_num [bestScores, exceptMap, scoreEntry, routeBest, maxSimExs,
        maxSimGo, cosineSimilarity, dot, magnitude, sqrtQ, epsQ, max_def,
        c1router]
    have hft : findTopK c1router ["q"] = .ok [⟨0, "r", 0⟩] := by
      rw [findTopK]
      have : c1router.encoder.encode ["q"] = [[-1]] := henc
      rw [this, hbs]
      norm_num [nlargest, rankedAll, decorate, toMatches,
        List.insertionSort, List.orderedInsert]
    rw [route, exceptMap, hft, exceptMap]
  refine ⟨rfl, henc, ?_, by norm_num, hroute, by norm_num⟩
  norm_num [maxSimExs, maxSimGo, cosineSimilarity, dot, magnitude, sqrtQ,
    epsQ]

def c2encoder : Encoder := ⟨true, fun ts => ts.map (fun _ => [(1 : ℚ)])⟩

def c2routes : List Route :=
  [⟨"empty_route", "a route with no examples", []⟩,
   ⟨"full_route", "a route with one example", ["x"]⟩]

def c2router : Router :=
  { encoder := c2encoder, routes := c2routes, topK := 5,
    routerMap := [("empty_route", []), ("full_route", [[1]])] }

/-- C2: the catalog with a zero-example route builds successfully, but any
query then raises `ValueError` from `max()` over the empty generator
(`router.py:102-105`) instead of scoring the route 0 — the code crashes where
the spec says the query succeeds. -/
theorem c2_empty_examples_raises :
    buildRouter c2encoder c2routes 5 = .ok c2router ∧
    route c2router ["q"] = .error .maxOfEmptySequence :=
  ⟨rfl, rfl⟩

/-- C3: router construction fails with the corresponding error for an empty
catalog, duplicate names, duplicate descriptions, or a non-DenseEncoder, the
checks running in that source order; every error is decided before any
encoder call (the result is the same for any encoder with the same
`isinstance` status), and an error means no `Router` value (no partial index)
is produced. -/
theorem c3_build_validation (enc : Encoder) (routes : List Route) (k : Int) :
    (routes = [] → buildRouter enc routes k = .error .emptyCatalog) ∧
    (¬ (routes.map Route.name).Nodup →
      buildRouter enc routes k = .error .duplicateName) ∧
    ((routes.map Route.name).Nodup → ¬ (routes.map Route.description).Nodup →
      buildRouter enc routes k = .error .duplicateDescription) ∧
    (routes ≠ [] → (routes.map Route.name).Nodup →
      (routes.map Route.description).Nodup → enc.isDense = false →
      buildRouter enc routes k = .error .invalidEncoder) ∧
    (∀ enc' : Encoder, enc'.isDense = enc.isDense → ∀ e : Err,
      buildRouter enc routes k = .error e →
        buildRouter enc' routes k = .error e) := by
  refine ⟨?_, ?_, ?_, ?_, ?_⟩
  · intro h
    subst h
    rfl
  · intro h
    have hne : routes.length ≠ 0 := by
      intro hlen
      rw [List.length_eq_zero] at hlen
      subst hlen
      exact h (by simp)
    unfold buildRouter
    rw [if_neg hne, if_pos h]
  · intro hnames hdescs
    have hne : routes.length ≠ 0 := by
      intro hlen
      rw [List.length_eq_zero] at hlen
      subst hlen
      exact hdescs (by simp)
    unfold buildRouter
    rw [if_neg hne, if_neg (not_not_intro hnames), if_pos hdescs]
  · intro hner hnames hdescs hdense
    have hne : routes.length ≠ 0 := by
      intro hlen
      exact hner (List.length_eq_zero.1 hlen)
    unfold buildRouter
    rw [if_neg hne, if_neg (not_not_intro hnames),
      if_neg (not_not_intro hdescs), if_pos (by simp [hdense])]
  · intro enc' hd e herr
    unfold buildRouter at herr ⊢
    by_cases h1 : routes.length = 0
    · rw [if_pos h1] at herr ⊢
      exact herr
    rw [if_neg h1] at herr ⊢
    by_cases h2 : ¬ (routes.map Route.name).Nodup
    · rw [if_pos h2] at herr ⊢
      exact herr
    rw [if_neg h2] at herr ⊢
    by_cases h3 : ¬ (routes.map Route.description).Nodup
    · rw [if_pos h3] at herr ⊢
      exact herr
    rw [if_neg h3] at herr ⊢
    by_cases h4 : ¬ (enc.isDense : Prop)
    · rw [if_pos h4] at herr
      rw [if_pos (by simpa [hd] using h4)]
      exact herr
    · rw [if_neg h4] at herr
      cases herr

def c3wEnc : Encoder := ⟨true, fun _ => []⟩

def c3wEncBad : Encoder := ⟨false, fun _ => []⟩

theorem c3_witness :
    buildRouter c3wEnc [] 5 = .error .emptyCatalog ∧
    buildRouter c3wEnc [⟨"a", "x", []⟩, ⟨"a", "y", []⟩] 5 =
      .error .duplicateName ∧
    buildRouter c3wEnc [⟨"a", "x", []⟩, ⟨"b", "x", []⟩] 5 =
      .error .duplicateDescription ∧
    buildRouter c3wEncBad [⟨"a", "x", []⟩] 5 = .error .invalidEncoder :=
  ⟨(c3_build_validation c3wEnc [] 5).1 rfl,
    (c3_build_validation c3wEnc [⟨"a", "x", []⟩, ⟨"a", "y", []⟩] 5).2.1
      (by decide),
    (c3_build_validation c3wEnc [⟨"a", "x", []⟩, ⟨"b", "x", []⟩] 5).2.2.1
      (by decide) (by decide),
    (c3_build_validation c3wEncBad [⟨"a", "x", []⟩] 5).2.2.2.1
      (by decide) (by decide) (by decide) rfl⟩

def c4encoder : Encoder := ⟨true, fun ts => ts.map (fun _ => [(1 : ℚ)])⟩

def c4routes : List Route := [⟨"no_examples", "an example-free route", []⟩]

def c4router : Router :=
  { encoder := c4encoder, routes := c4routes, topK := 2,
    routerMap := [("no_examples", [])] }

/-- C4 counterexample: an index builds successfully from a catalog whose
single route has no examples, but `route` then returns an error (Python
raises `ValueError` from `max()` over an empty sequence) instead of one
result per query — so the claim fails as stated for such an index. -/
theorem c4_counterexample :
    buildRouter c4encoder c4routes 2 = .ok c4router ∧
    route c4router ["hello"] = .error .maxOfEmptySequence :=
  ⟨rfl, rfl⟩

def c6encoder : Encoder := ⟨true, fun ts => ts.map (fun _ => [(1 : ℚ)])⟩

def c6routes : List Route := [⟨"r6", "d6", ["x"]⟩]

def c6router : Router :=
  { encoder := c6encoder, routes := c6routes, topK := 0,
    routerMap := [("r6", [[1]])] }

/-- C6 counterexample: a router with `top_k = 0` (< 1) answers queries
without any error: `heapq.nlargest(0, ...)` returns the empty list, so the
query succeeds with an empty match list — no InvalidArgument validation
exists in `__init__` or in `_find_top_k_closest_routes`. -/
theorem c6_counterexample :
    buildRouter c6encoder c6routes 0 = .ok c6router ∧
    route c6router ["q"] = .ok [⟨"q", []⟩] :=
  ⟨rfl, rfl⟩

/-- C6 (amended): a `top_k` below 1 is never rejected; whenever the query
pipeline otherwise succeeds, each query's match list is simply empty
(`heapq.nlargest(n, ...) = []` for `n <= 0`). -/
theorem c6_low_topk_empty_matches {r : Router} {qs : List String}
    {res : List QueryResult} (hk : r.topK < 1) (h : route r qs = .ok res) :
    ∀ x ∈ res, x.route = [] := by
  intro x hx
  obtain ⟨bs, _, hms⟩ := findTopK_ok_iff.1 (route_ok_mem h x hx)
  have hz : r.topK.toNat = 0 := by omega
  rw [hms]
  simp [nlargest, hz, toMatches]

theorem c6_witness :
    c6router.topK < 1 ∧
    route c6router ["z"] = .ok [⟨"z", []⟩] ∧
    (⟨"z", ([] : List RouteMatch)⟩ : QueryResult).route = [] :=
  ⟨by decide, rfl,
    @c6_low_topk_empty_matches c6router ["z"] [⟨"z", []⟩] (by decide) rfl _
      (List.mem_singleton_self _)⟩

/-- C10: whenever a query batch returns results, every reported
`cosine_similarity` is at least 0: each `best_scores` value is a running
maximum seeded with `0.0` (`router.py:106`), so a route whose best example
similarity is negative is reported with score 0 instead. -/
theorem c10_scores_nonneg {r : Router} {qs : List String}
    {res : List QueryResult} (h : route r qs = .ok res) :
    ∀ x ∈ res, ∀ m ∈ x.route, 0 ≤ m.cosine_similarity := by
  intro x hx m hm
  obtain ⟨bs, hbs, hms⟩ := findTopK_ok_iff.1 (route_ok_mem h x hx)
  rw [hms] at hm
  exact bestScores_mem_nonneg hbs _ (nlargest_subset _ (mem_toMatches hm))

/-- C4 (amended): provided every route has at least one example and the
encoder honours its contract (one vector per input text, all of one
dimension), `route` succeeds on every query sequence and returns one result
per query in input order, each holding exactly `min(max(top_k, 0), n)`
matches with 0-based ranks 0, 1, ... and scores in non-increasing order. -/
theorem c4_route_shape {enc : Encoder} {routes : List Route} {k : Int}
    {r : Router} {qs : List String} {d : Nat}
    (hb : buildRouter enc routes k = .ok r)
    (hlen : ∀ ts : List String, (enc.encode ts).length = ts.length)
    (hdim : ∀ ts : List String, ∀ v ∈ enc.encode ts, v.length = d)
    (hex : ∀ rt ∈ routes, rt.examples ≠ []) :
    ∃ res, route r qs = .ok res ∧
      res.map (fun x => x.query) = qs ∧
      ∀ x ∈ res,
        x.route.length = min k.toNat routes.length ∧
        x.route.map (fun m => m.rank) = List.range x.route.length ∧
        x.route.Pairwise
          (fun m1 m2 => m2.cosine_similarity ≤ m1.cosine_similarity) := by
  obtain ⟨henc, hroutes, hk, hrm, hnodup, -⟩ := buildRouter_ok hb
  have hkey : ∀ q : String, ∃ bs,
      bestScores r.routerMap (r.encoder.encode [q]) = .ok bs ∧
      bs.length = routes.length ∧
      bs.map Prod.fst = routes.map Route.name := by
    intro q
    rw [henc]
    obtain ⟨v, hv⟩ := List.length_eq_one.1 (hlen [q])
    rw [hv, hrm, bestScores_cons]
    have hok : ∀ p ∈ routes.map (fun rt => (rt.name, enc.encode rt.examples)),
        ∃ b, scoreEntry [v] p = .ok b := by
      intro p hp
      obtain ⟨rt, hrt, hprt⟩ := List.mem_map.1 hp
      subst hprt
      have hexne : enc.encode rt.examples ≠ [] := by
        intro hnil
        have hl := hlen rt.examples
        rw [hnil] at hl
        exact hex rt hrt (List.length_eq_zero.1 hl.symm)
      have hcos : ∀ e ∈ enc.encode rt.examples,
          ∃ c, cosineSimilarity v e = .ok c := by
        intro e he
        apply cosineSimilarity_ok_of_length
        rw [hdim [q] v (by rw [hv]; exact List.mem_singleton_self v),
          hdim rt.examples e he]
      obtain ⟨s, hs⟩ := routeBest_ok_of hexne hcos
      exact ⟨(rt.name, s), by simp only [scoreEntry, hs]⟩
    obtain ⟨bs, hbs⟩ := exceptMap_ok_of_forall hok
    refine ⟨bs, hbs, ?_, ?_⟩
    · have hl := (exceptMap_forall₂ hbs).length_eq
      rw [List.length_map] at hl
      exact hl.symm
    · rw [forall₂_scoreEntry_fst (exceptMap_forall₂ hbs), routerMap_fst]
  have hkey2 : ∀ q : String, ∃ ms, findTopK r [q] = .ok ms ∧
      ms.length = min k.toNat routes.length ∧
      ms.map (fun m => m.rank) = List.range ms.length ∧
      ms.Pairwise (fun m1 m2 => m2.cosine_similarity ≤ m1.cosine_similarity) := by
    intro q
    obtain ⟨bs, hbs, hlenbs, hfst⟩ := hkey q
    refine ⟨toMatches 0 (nlargest r.topK bs),
      findTopK_ok_iff.2 ⟨bs, hbs, rfl⟩, ?_, ?_, ?_⟩
    · rw [toMatches_length, nlargest_length, hlenbs, hk]
    · rw [toMatches_map_rank, toMatches_length]
      exact (List.range_eq_range' _).symm
    · have hnd : (bs.map Prod.fst).Nodup := by
        rw [hfst]
        exact hnodup
      exact (toMatches_pairwise (@nlargest_pairwise r.topK bs hnd)).imp
        (fun hto => hto.1)
  obtain ⟨res, hres⟩ :=
    route_ok_of_forall (fun q _ => (hkey2 q).imp (fun ms h => h.1))
  refine ⟨res, hres, route_ok_queries hres, ?_⟩
  intro x hx
  have hft := route_ok_mem hres x hx
  obtain ⟨ms, hms, hprops⟩ := hkey2 x.query
  have hxms : x.route = ms := by
    rw [hft] at hms
    exact Except.ok.inj hms
  rw [hxms]
  exact hprops

def c4wEnc : Encoder := ⟨true, fun ts => ts.map (fun _ => [(1 : ℚ)])⟩

def c4wRoutes : List Route := [⟨"w1", "e1", ["a"]⟩, ⟨"w2", "e2", ["b"]⟩]

def c4wRouter : Router :=
  { encoder := c4wEnc, routes := c4wRoutes, topK := 1,
    routerMap := [("w1", [[1]]), ("w2", [[1]])] }

theorem c4_witness :
    buildRouter c4wEnc c4wRoutes 1 = .ok c4wRouter ∧
    (∀ ts : List String, (c4wEnc.encode ts).length = ts.length) ∧
    (∀ ts : List String, ∀ v ∈ c4wEnc.encode ts, v.length = 1) ∧
    (∀ rt ∈ c4wRoutes, rt.examples ≠ []) ∧
    (∃ res, route c4wRouter ["hello", "world"] = .ok res ∧
      res.map (fun x => x.query) = ["hello", "world"] ∧
      ∀ x ∈ res,
        x.route.length = min (1 : Int).toNat c4wRoutes.length ∧
        x.route.map (fun m => m.rank) = List.range x.route.length ∧
        x.route.Pairwise
          (fun m1 m2 => m2.cosine_similarity ≤ m1.cosine_similarity)) := by
  have hlen : ∀ ts : List String, (c4wEnc.encode ts).length = ts.length := by
    intro ts
    simp [c4wEnc]
  have hdim : ∀ ts : List String, ∀ v ∈ c4wEnc.encode ts, v.length = 1 := by
    intro ts v hv
    simp only [c4wEnc] at hv
    obtain ⟨t, -, rfl⟩ := List.mem_map.1 hv
    rfl
  have hex : ∀ rt ∈ c4wRoutes, rt.examples ≠ [] := by decide
  exact ⟨rfl, hlen, hdim, hex,
    @c4_route_shape c4wEnc c4wRoutes 1 c4wRouter ["hello", "world"] 1 rfl
      hlen hdim hex⟩

/-- C5: on a built index, ties are broken by catalog order.  For every query
result: (a) any two returned matches with equal scores appear in the order of
their routes' catalog positions (`idxOfS` over the route-name list), and
(b) if a route was assigned a score `s` but does not appear among the
returned matches, every returned match with that same score belongs to an
earlier-defined route — the first-defined route wins the tie.  This is
CPython `heapq.nlargest`'s decorate-with-descending-counter tie-break. -/
theorem c5_tie_break {enc : Encoder} {routes : List Route} {k : Int}
    {r : Router} {qs : List String} {res : List QueryResult}
    (hb : buildRouter enc routes k = .ok r) (h : route r qs = .ok res) :
    ∀ x ∈ res,
      (x.route.Pairwise (fun m1 m2 =>
        m1.cosine_similarity = m2.cosine_similarity →
          idxOfS (routes.map Route.name) m1.route_name <
            idxOfS (routes.map Route.name) m2.route_name)) ∧
      (∀ p ∈ r.routerMap, ∀ s : ℚ,
        routeBest (r.encoder.encode [x.query]) p.2 = .ok s →
        p.1 ∉ x.route.map (fun m => m.route_name) →
        ∀ m ∈ x.route, m.cosine_similarity = s →
          idxOfS (routes.map Route.name) m.route_name <
            idxOfS (routes.map Route.name) p.1) := by
  obtain ⟨henc, hroutes, hk, hrm, hnodup, -⟩ := buildRouter_ok hb
  intro x hx
  obtain ⟨bs, hbs, hms⟩ := findTopK_ok_iff.1 (route_ok_mem h x hx)
  cases hE : r.encoder.encode [x.query] with
  | nil =>
    rw [hE] at hbs
    have hbs' : bs = [] := by
      simp only [bestScores] at hbs
      exact (Except.ok.inj hbs).symm
    subst hbs'
    have hroute_nil : x.route = [] := by
      rw [hms]
      simp [nlargest, rankedAll, decorate, toMatches, List.take_nil]
    rw [hroute_nil]
    constructor
    · exact List.Pairwise.nil
    · intro p hp s hrb hnot m hm
      cases hm
  | cons v vs =>
    rw [hE] at hbs
    have hfst : bs.map Prod.fst = routes.map Route.name := by
      rw [bestScores_fst hbs, hrm, routerMap_fst]
    have hnd : (bs.map Prod.fst).Nodup := by
      rw [hfst]
      exact hnodup
    constructor
    · rw [hms]
      refine (toMatches_pairwise (@nlargest_pairwise r.topK bs hnd)).imp ?_
      intro m1 m2 hto heq
      have hlt := hto.2 heq
      rwa [hfst] at hlt
    · intro p hp s hrb hnot m hm hsim
      obtain ⟨b, hbmem, hbe⟩ := forall₂_mem_left (bestScores_forall₂ hbs) hp
      obtain ⟨hb1, hb2⟩ := scoreEntry_ok hbe
      have hb2' : b.2 = s := by
        rw [hrb] at hb2
        exact (Except.ok.inj hb2).symm
      have hout : b ∉ nlargest r.topK bs := by
        intro hin
        apply hnot
        have hmemname : b.1 ∈ (nlargest r.topK bs).map Prod.fst :=
          List.mem_map_of_mem Prod.fst hin
        rw [hms, toMatches_map_name, ← hb1]
        exact hmemname
      have hmm : (m.route_name, m.cosine_similarity) ∈ nlargest r.topK bs := by
        rw [hms] at hm
        exact mem_toMatches hm
      have hto := nlargest_excluded hnd hbmem hout _ hmm
      have hlt := hto.2 (by rw [hsim, hb2'])
      rw [hfst] at hlt
      rw [← hb1]
      exact hlt

def c5encoder : Encoder := ⟨true, fun ts => ts.map (fun _ => [(1 : ℚ)])⟩

def c5routes : List Route := [⟨"r1", "d1", ["x"]⟩, ⟨"r2", "d2", ["y"]⟩]

def c5router : Router :=
  { encoder := c5encoder, routes := c5routes, topK := 1,
    routerMap := [("r1", [[1]]), ("r2", [[1]])] }

def c5val : ℚ := 1000000000000 / 1000000000001

theorem c5_witness :
    buildRouter c5encoder c5routes 1 = .ok c5router ∧
    route c5router ["q"] = .ok [⟨"q", [⟨0, "r1", c5val⟩]⟩] ∧
    routeBest (c5router.encoder.encode ["q"]) [[1]] = .ok c5val ∧
    idxOfS (c5routes.map Route.name) "r1" <
      idxOfS (c5routes.map Route.name) "r2" := by
  have henc : c5router.encoder.encode ["q"] = [[1]] := by
    simp [c5router, c5encoder]
  have hroute : route c5router ["q"] = .ok [⟨"q", [⟨0, "r1", c5val⟩]⟩] := by
    have hbs : bestScores c5router.routerMap [[1]] =
        .ok [("r1", c5val), ("r2", c5val)] := by
      norm_num [bestScores, exceptMap, scoreEntry, routeBest, maxSimExs,
        maxSimGo, cosineSimilarity, dot, magnitude, sqrtQ, epsQ, max_def,
        c5router, c5val]
    have hft : findTopK c5router ["q"] = .ok [⟨0, "r1", c5val⟩] := by
      rw [findTopK, henc, hbs]
      norm_num [nlargest, rankedAll, decorate, toMatches,
        List.insertionSort, List.orderedInsert, heapRel]
    rw [route, exceptMap, hft, exceptMap]
  have hrb : routeBest (c5router.encoder.encode ["q"]) [[1]] = .ok c5val := by
    rw [henc]
    norm_num [routeBest, exceptMap, maxSimExs, maxSimGo, cosineSimilarity,
      dot, magnitude, sqrtQ, epsQ, max_def, c5val]
  refine ⟨rfl, hroute, hrb, ?_⟩
  exact ((@c5_tie_break c5encoder c5routes 1 c5router ["q"]
      [⟨"q", [⟨0, "r1", c5val⟩]⟩] rfl hroute _ (List.mem_singleton_self _)).2
    ("r2", [[1]])
    (List.mem_cons_of_mem _ (List.mem_singleton_self _))
    c5val hrb (by decide) _ (List.mem_singleton_self _) rfl)

def c10encoder : Encoder := ⟨true, fun ts => ts.map (fun _ => [(1 : ℚ)])⟩

def c10routes : List Route := [⟨"r10", "d10", ["x"]⟩]

def c10router : Router :=
  { encoder := c10encoder, routes := c10routes, topK := 3,
    routerMap := [("r10", [[1]])] }

theorem c10_witness :
    route c10router ["w"] =
      .ok [⟨"w", [⟨0, "r10", 1000000000000 / 1000000000001⟩]⟩] ∧
    (0 : ℚ) ≤ 1000000000000 / 1000000000001 := by
  have hroute : route c10router ["w"] =
      .ok [⟨"w", [⟨0, "r10", 1000000000000 / 1000000000001⟩]⟩] := by
    have hbs : bestScores c10router.routerMap [[1]] =
        .ok [("r10", 1000000000000 / 1000000000001)] := by
      norm_num [bestScores, exceptMap, scoreEntry, routeBest, maxSimExs,
        maxSimGo, cosineSimilarity, dot, magnitude, sqrtQ, epsQ, max_def,
        c10router]
    have hft : findTopK c10router ["w"] =
        .ok [⟨0, "r10", 1000000000000 / 1000000000001⟩] := by
      rw [findTopK]
      have henc : c10router.encoder.encode ["w"] = [[1]] := by
        simp [c10router, c10encoder]
      rw [henc, hbs]
      norm_num [nlargest, rankedAll, decorate, toMatches,
        List.insertionSort, List.orderedInsert]
    rw [route, exceptMap, hft, exceptMap]
  exact ⟨hroute,
    c10_scores_nonneg hroute _ (List.mem_singleton_self _) _
      (List.mem_singleton_self _)⟩

end SemRouter
